import Mathlib

/-!
Shallow embedding of `parser.go` from the reviewdog repository: the canonical
diagnostic record model, the parser factory `NewParser`, and the three parser
strategies (`ErrorformatParser`, `CheckStyleParser`, `RDJSONLParser`).

External collaborators are modelled as explicit parameters:
  * XML decoding (`encoding/xml`) as `decodeXML : String → Except String CheckStyleResult`;
  * JSON decoding of one line (`encoding/json.Unmarshal` into `rdf.Diagnostic`)
    as `decode : String → Except String Diagnostic`;
  * the errorformat scanning engine (`github.com/reviewdog/errorformat`) by the
    entry sequence it yields, per its published contract;
  * the catalog `fmts.DefinedFmts()` as `dfmts : String → Option (List String)`;
  * errorformat compilation (`errorformat.NewErrorformat`) as
    `compile : List String → Except String Errorformat`.
Line splitting by `bufio.Scanner` with its default `bufio.ScanLines` split
function is modelled concretely (`scanLines` below), following the documented
Go semantics: tokens are newline-separated, a trailing carriage return is
stripped from each token, the final newline does not produce an extra empty
token, and at end of input a last non-empty fragment is returned as a token.
Go `int32` conversions are modelled by `wrap32` on `Int`.
-/

namespace Reviewdog

/-- `rdf.Position`: `Line` and `Column` are `int32` in the proto; modelled as
`Int` (the `int32` range is enforced at the conversion points via `wrap32`). -/
structure Position where
  line : Int := 0
  column : Int := 0
deriving DecidableEq, Repr

/-- `rdf.Range`. The `End` position is never populated by any parser in
`parser.go`, so it is omitted from the model. -/
structure Range where
  start : Position := {}
deriving DecidableEq, Repr

/-- `rdf.Location`. -/
structure Location where
  path : String := ""
  range : Range := {}
deriving DecidableEq, Repr

/-- `rdf.Diagnostic`: the canonical record. Severity, code and other optional
proto fields are never populated by the parsers in `parser.go` and are
omitted. -/
structure Diagnostic where
  location : Location := {}
  message : String := ""
deriving DecidableEq, Repr

/-- `CheckResult`: one diagnostic paired with the raw source lines that
produced it. -/
structure CheckResult where
  diagnostic : Diagnostic
  lines : List String
deriving DecidableEq, Repr

/-- Go `int32(n)` conversion from `int`: two's-complement wrap-around. -/
def wrap32 (n : Int) : Int := (n + 2 ^ 31) % 2 ^ 32 - 2 ^ 31

/-- `n` fits in `int32`, so `wrap32` is the identity on it. -/
def inInt32 (n : Int) : Prop := -(2 ^ 31) ≤ n ∧ n < 2 ^ 31

instance (n : Int) : Decidable (inInt32 n) := by unfold inInt32; infer_instance

theorem wrap32_eq_self {n : Int} (h : inInt32 n) : wrap32 n = n := by
  obtain ⟨h1, h2⟩ := h
  unfold wrap32
  have hlt : n + 2 ^ 31 < 2 ^ 32 := by omega
  have hge : (0 : Int) ≤ n + 2 ^ 31 := by omega
  rw [Int.emod_eq_of_lt hge hlt]
  omega

/-! ## Line scanning (`bufio.Scanner` with `bufio.ScanLines`) -/

/-- `dropCR` of `bufio.ScanLines`, acting on a reversed character
accumulator: remove one trailing `\r` (the head of the reversed list). -/
def dropCRRev : List Char → List Char
  | '\r' :: rest => rest
  | acc => acc

/-- Turn a reversed accumulator into the emitted token. -/
def mkToken (acc : List Char) : String := String.mk (dropCRRev acc).reverse

/-- The token stream `bufio.Scanner`/`bufio.ScanLines` produces from the
remaining characters, given the (reversed) characters of the current line read
so far: a newline emits the current line; end of input emits a final token
only when the pending fragment is non-empty. -/
def scanLinesGo : List Char → List Char → List String
  | [], acc => if acc.isEmpty then [] else [mkToken acc]
  | c :: rest, acc => if c = '\n' then mkToken acc :: scanLinesGo rest [] else scanLinesGo rest (c :: acc)

/-- All tokens `bufio.Scanner` yields on input `s` with the default
`bufio.ScanLines` split function. -/
def scanLines (s : String) : List String := scanLinesGo s.data []

/-! ## Parser factory (`NewParser`) -/

/-- `ParserOpt`: option to create a Parser. Either `FormatName` or
`Errorformat` should be specified. -/
structure ParserOpt where
  FormatName : String
  Errorformat : List String
deriving DecidableEq, Repr

/-- A compiled errorformat engine (`*errorformat.Errorformat`), identified by
the rules it was compiled from; its internals are an external black box. -/
structure Errorformat where
  rules : List String
deriving DecidableEq, Repr

/-- The closed set of parsers `NewParser` can return. -/
inductive Parser where
  | checkStyle : Parser
  | rdjsonl : Parser
  | efm : Errorformat → Parser
deriving DecidableEq, Repr

/-- The catalog-resolution step of `NewParser` (lines 39–45 of `parser.go`):
when `FormatName` is non-empty, look it up in the catalog and, on a hit,
overwrite `opt.Errorformat` with the resolved rule list (the Go code assigns
through the `*ParserOpt` pointer); a miss fails with the unsupported-format
error. -/
def resolveOpt (dfmts : String → Option (List String)) (opt : ParserOpt) :
    Except String ParserOpt :=
  if opt.FormatName = "" then Except.ok opt
  else
    match dfmts opt.FormatName with
    | some efm => Except.ok { opt with Errorformat := efm }
    | none =>
      Except.error ("\"" ++ opt.FormatName ++ "\" is not supported. consider to add new errorformat to https://github.com/reviewdog/errorformat")

/-- The tail of `NewParser` (lines 46–49 of `parser.go`): with the possibly
overwritten option state `opt2`, fail if the rule list is still empty,
otherwise compile it (`NewErrorformatParserString`). -/
def buildEfmParser (compile : List String → Except String Errorformat)
    (opt2 : ParserOpt) : Except String Parser × ParserOpt :=
  if opt2.Errorformat = [] then (Except.error "errorformat is empty", opt2)
  else
    match compile opt2.Errorformat with
    | Except.error e => (Except.error e, opt2)
    | Except.ok efm => (Except.ok (Parser.efm efm), opt2)

/-- `NewParser` from `parser.go`. Since Go passes `opt` by pointer and the
function assigns to `opt.Errorformat`, the model returns the final state of
`*opt` alongside the result. `dfmts` models the catalog `fmts.DefinedFmts()`;
`compile` models `errorformat.NewErrorformat`. -/
def NewParser (dfmts : String → Option (List String))
    (compile : List String → Except String Errorformat)
    (opt : ParserOpt) : Except String Parser × ParserOpt :=
  if opt.FormatName ≠ "" ∧ opt.Errorformat ≠ [] then
    (Except.error "you cannot specify both format name and errorformat at the same time", opt)
  else if opt.FormatName = "checkstyle" then
    (Except.ok Parser.checkStyle, opt)
  else if opt.FormatName = "rdjsonl" then
    (Except.ok Parser.rdjsonl, opt)
  else
    match resolveOpt dfmts opt with
    | Except.error e => (Except.error e, opt)
    | Except.ok opt2 => buildEfmParser compile opt2

/-! ## Errorformat scanner adapter (`ErrorformatParser.Parse`) -/

/-- One `errorformat.Entry` yielded by the external scanning engine: filename,
line, column, message text, validity flag, and the raw lines consumed by the
match. `lnum`/`col` are Go `int`s. -/
structure Entry where
  filename : String
  lnum : Int
  col : Int
  text : String
  lines : List String
  valid : Bool
deriving DecidableEq, Repr

/-- The `CheckResult` built from one valid entry (the record literal inside
the scan loop of `ErrorformatParser.Parse`, with the `int32` conversions of
`e.Lnum` and `e.Col`). -/
def entryResult (e : Entry) : CheckResult :=
  { diagnostic :=
      { location :=
          { path := e.filename,
            range := { start := { line := wrap32 e.lnum, column := wrap32 e.col } } },
        message := e.text },
    lines := e.lines }

/-- `ErrorformatParser.Parse`: the engine (black box) yields `entries` in scan
order; the adapter appends one `CheckResult` per valid entry and always
returns a nil error (`none`) — the scanner loop's error status is never
consulted. -/
def ErrorformatParser.Parse (entries : List Entry) : List CheckResult × Option String :=
  (entries.foldl (fun rs e => if e.valid then rs ++ [entryResult e] else rs) [], none)

/-! ## Checkstyle parser (`CheckStyleParser.Parse`) -/

/-- `CheckStyleError`: one `<error .../>` element. Attribute types follow the
Go struct (`Column`, `Line` are `int`). -/
structure CheckStyleError where
  column : Int := 0
  line : Int := 0
  message : String := ""
  severity : String := ""
  source : String := ""
deriving DecidableEq, Repr

/-- `CheckStyleFile`: `<file name="..."> ... </file>`. -/
structure CheckStyleFile where
  name : String := ""
  errors : List CheckStyleError := []
deriving DecidableEq, Repr

/-- `CheckStyleResult`: the decoded `<checkstyle>` document. -/
structure CheckStyleResult where
  version : String := ""
  files : List CheckStyleFile := []
deriving DecidableEq, Repr

/-- The single synthesized line
`fmt.Sprintf("%v:%d:%d: %v: %v (%v)", name, line, column, severity, message, source)`. -/
def checkStyleLine (name : String) (line column : Int)
    (severity message source : String) : String :=
  name ++ ":" ++ toString line ++ ":" ++ toString column ++ ": " ++ severity ++ ": "
    ++ message ++ " (" ++ source ++ ")"

/-- The `CheckResult` built for one checkstyle error inside one file. -/
def checkStyleResultFor (name : String) (cerr : CheckStyleError) : CheckResult :=
  { diagnostic :=
      { location :=
          { path := name,
            range := { start := { line := wrap32 cerr.line, column := wrap32 cerr.column } } },
        message := cerr.message },
    lines := [checkStyleLine name cerr.line cerr.column cerr.severity cerr.message cerr.source] }

/-- `CheckStyleParser.Parse`: decode the whole stream as one checkstyle
document (`decodeXML` models `xml.NewDecoder(r).Decode`; its error is
propagated unmodified), then flatten files and errors in document order via
the nested append loop. -/
def CheckStyleParser.Parse (decodeXML : String → Except String CheckStyleResult)
    (input : String) : Except String (List CheckResult) :=
  match decodeXML input with
  | Except.error e => Except.error e
  | Except.ok cs =>
    Except.ok (cs.files.foldl
      (fun rs file => file.errors.foldl (fun rs cerr => rs ++ [checkStyleResultFor file.name cerr]) rs)
      [])

/-! ## RDJSONL parser (`RDJSONLParser.Parse`) -/

/-- The scan loop of `RDJSONLParser.Parse` over the token list produced by the
line scanner: each token is JSON-decoded (`decode` models `json.Unmarshal`
into `rdf.Diagnostic`); the first decode error aborts the whole call with that
error, otherwise one `CheckResult` is appended per token with `Lines` the raw
token. -/
def RDJSONLParser.parseTokens (decode : String → Except String Diagnostic) :
    List String → Except String (List CheckResult)
  | [] => Except.ok []
  | l :: rest =>
    match decode l with
    | Except.error e => Except.error e
    | Except.ok d =>
      match RDJSONLParser.parseTokens decode rest with
      | Except.error e => Except.error e
      | Except.ok rs => Except.ok ({ diagnostic := d, lines := [l] } :: rs)

/-- `RDJSONLParser.Parse` on a stream that delivers `input` and then EOF. -/
def RDJSONLParser.Parse (decode : String → Except String Diagnostic)
    (input : String) : Except String (List CheckResult) :=
  RDJSONLParser.parseTokens decode (scanLines input)

/-- `RDJSONLParser.Parse` on a reader that delivers `data` and then either EOF
(`readErr = false`) or a read error (`readErr = true`). In both cases
`bufio.Scanner` emits the tokens of the data read so far and then `Scan`
returns `false`; the Go code never consults `s.Err()`, so the `readErr` flag
cannot influence the result. -/
def RDJSONLParser.ParseFromReader (decode : String → Except String Diagnostic)
    (data : String) (readErr : Bool) : Except String (List CheckResult) :=
  RDJSONLParser.parseTokens decode (scanLines data)

/-- Decoding every line of a list: succeeds (with the list of diagnostics)
exactly when every line decodes, failing with the first error otherwise. -/
def decodeList (decode : String → Except String Diagnostic) :
    List String → Except String (List Diagnostic)
  | [] => Except.ok []
  | l :: rest =>
    match decode l with
    | Except.error e => Except.error e
    | Except.ok d =>
      match decodeList decode rest with
      | Except.error e => Except.error e
      | Except.ok ds => Except.ok (d :: ds)

/-! ## General lemmas about the accumulation loops -/

theorem foldl_append_map {α β : Type} (f : α → β) :
    ∀ (l : List α) (acc : List β),
      l.foldl (fun rs e => rs ++ [f e]) acc = acc ++ l.map f := by
  intro l
  induction l with
  | nil => intro acc; simp
  | cons x xs ih => intro acc; simp [ih]

theorem foldl_guard_append_map {α β : Type} (p : α → Bool) (f : α → β) :
    ∀ (l : List α) (acc : List β),
      l.foldl (fun rs e => if p e then rs ++ [f e] else rs) acc
        = acc ++ l.filterMap (fun e => if p e then some (f e) else none) := by
  intro l
  induction l with
  | nil => intro acc; simp
  | cons x xs ih =>
    intro acc
    cases hp : p x <;> simp [hp, ih]

theorem length_filterMap_guard {α β : Type} (p : α → Bool) (f : α → β) :
    ∀ l : List α,
      (l.filterMap (fun e => if p e then some (f e) else none)).length
        = (l.filter p).length := by
  intro l
  induction l with
  | nil => simp
  | cons x xs ih => cases hp : p x <;> simp [hp, ih]

theorem filterMap_congr_mem {α β : Type} {f g : α → Option β} :
    ∀ {l : List α}, (∀ e ∈ l, f e = g e) → l.filterMap f = l.filterMap g := by
  intro l
  induction l with
  | nil => intro _; rfl
  | cons x xs ih =>
    intro h
    rw [List.filterMap_cons, List.filterMap_cons, h x (List.mem_cons_self x xs),
      ih (fun e he => h e (List.mem_cons_of_mem x he))]

theorem flatMap_congr_mem {α β : Type} {f g : α → List β} :
    ∀ {l : List α}, (∀ e ∈ l, f e = g e) → l.flatMap f = l.flatMap g := by
  intro l
  induction l with
  | nil => intro _; rfl
  | cons x xs ih =>
    intro h
    rw [List.flatMap_cons, List.flatMap_cons, h x (List.mem_cons_self x xs),
      ih (fun e he => h e (List.mem_cons_of_mem x he))]

theorem checkStyle_foldl_eq :
    ∀ (files : List CheckStyleFile) (acc : List CheckResult),
      files.foldl
        (fun rs file =>
          file.errors.foldl (fun rs cerr => rs ++ [checkStyleResultFor file.name cerr]) rs)
        acc
        = acc ++ files.flatMap (fun f => f.errors.map (checkStyleResultFor f.name)) := by
  intro files
  induction files with
  | nil => intro acc; simp
  | cons f fs ih =>
    intro acc
    rw [List.foldl_cons, foldl_append_map, ih, List.flatMap_cons, List.append_assoc]

/-! ## Lemmas about the RDJSONL token loop -/

theorem parseTokens_eq (decode : String → Except String Diagnostic) :
    ∀ ls : List String,
      RDJSONLParser.parseTokens decode ls =
        (match decodeList decode ls with
         | Except.error e => Except.error e
         | Except.ok ds =>
           Except.ok (List.zipWith (fun l d => ({ diagnostic := d, lines := [l] } : CheckResult)) ls ds)) := by
  intro ls
  induction ls with
  | nil => rfl
  | cons l rest ih =>
    unfold RDJSONLParser.parseTokens decodeList
    cases hd : decode l with
    | error e => simp
    | ok d =>
      rw [ih]
      cases hrest : decodeList decode rest with
      | error e => simp
      | ok ds => simp

theorem decodeList_length (decode : String → Except String Diagnostic) :
    ∀ (ls : List String) (ds : List Diagnostic),
      decodeList decode ls = Except.ok ds → ds.length = ls.length := by
  intro ls
  induction ls with
  | nil =>
    intro ds h
    unfold decodeList at h
    cases h
    rfl
  | cons l rest ih =>
    intro ds h
    unfold decodeList at h
    cases hd : decode l with
    | error e => rw [hd] at h; cases h
    | ok d =>
      rw [hd] at h
      cases hrest : decodeList decode rest with
      | error e => rw [hrest] at h; cases h
      | ok ds0 =>
        rw [hrest] at h
        cases h
        simp [ih ds0 hrest]

theorem parseTokens_error_of_mem (decode : String → Except String Diagnostic) :
    ∀ (ls : List String) (l er : String), l ∈ ls → decode l = Except.error er →
      ∃ e, RDJSONLParser.parseTokens decode ls = Except.error e := by
  intro ls
  induction ls with
  | nil => intro l er h; cases h
  | cons x rest ih =>
    intro l er hmem hdec
    unfold RDJSONLParser.parseTokens
    cases hx : decode x with
    | error e => exact ⟨e, by simp⟩
    | ok d =>
      have hl : l = x ∨ l ∈ rest := List.mem_cons.mp hmem
      cases hl with
      | inl h => rw [h, hx] at hdec; cases hdec
      | inr h =>
        obtain ⟨e, hres⟩ := ih l er h hdec
        exact ⟨e, by rw [hres]⟩

/-! ## Lemmas about line scanning -/

theorem scanLinesGo_nil (acc : List Char) :
    scanLinesGo [] acc = if acc.isEmpty then [] else [mkToken acc] := rfl

theorem scanLinesGo_cons (c : Char) (rest acc : List Char) :
    scanLinesGo (c :: rest) acc =
      if c = '\n' then mkToken acc :: scanLinesGo rest [] else scanLinesGo rest (c :: acc) := rfl

theorem scanLinesGo_append_newline :
    ∀ (cs acc : List Char), (cs = [] → acc ≠ []) → cs.getLast? ≠ some '\n' →
      scanLinesGo (cs ++ ['\n']) acc = scanLinesGo cs acc := by
  intro cs
  induction cs with
  | nil =>
    intro acc h1 h2
    have hacc : acc ≠ [] := h1 rfl
    rw [List.nil_append, scanLinesGo_cons]
    simp [scanLinesGo_nil, hacc, List.isEmpty_iff]
  | cons c rest ih =>
    intro acc h1 h2
    by_cases hc : c = '\n'
    · subst hc
      have hrest : rest ≠ [] := by
        intro h
        subst h
        simp at h2
      rw [List.cons_append, scanLinesGo_cons, scanLinesGo_cons, if_pos rfl, if_pos rfl]
      rw [ih [] (fun h => absurd h hrest)]
      obtain ⟨r, rest', hr⟩ := List.exists_cons_of_ne_nil hrest
      subst hr
      simpa using h2
    · rw [List.cons_append, scanLinesGo_cons, scanLinesGo_cons, if_neg hc, if_neg hc]
      apply ih
      · intro _
        exact List.cons_ne_nil c acc
      · cases rest with
        | nil => simp
        | cons r rest' => simpa using h2

theorem data_append (s t : String) : (s ++ t).data = s.data ++ t.data := by
  cases s
  cases t
  rfl

/-! ## Claims -/

/-- Claim C1: a checkstyle-markup input that decodes successfully with N files
and Mi errors in file i yields exactly Σ Mi CheckResults in file-then-error
document order, each with `Path` the enclosing file's name, `Start.Line` and
`Start.Column` from the error's attributes, `Message` from the message
attribute, and `Lines` the single synthesized string
`path:line:col: severity: message (source)`. -/
theorem checkStyle_parse_flatten (decodeXML : String → Except String CheckStyleResult)
    (input : String) (cs : CheckStyleResult)
    (hdec : decodeXML input = Except.ok cs)
    (hrange : ∀ f ∈ cs.files, ∀ e ∈ f.errors, inInt32 e.line ∧ inInt32 e.column) :
    ∃ rs, CheckStyleParser.Parse decodeXML input = Except.ok rs ∧
      rs = cs.files.flatMap (fun f => f.errors.map (fun e =>
        { diagnostic :=
            { location :=
                { path := f.name,
                  range := { start := { line := e.line, column := e.column } } },
              message := e.message },
          lines := [f.name ++ ":" ++ toString e.line ++ ":" ++ toString e.column ++ ": "
                      ++ e.severity ++ ": " ++ e.message ++ " (" ++ e.source ++ ")"] })) ∧
      rs.length = (cs.files.map (fun f => f.errors.length)).sum := by
  have hparse : CheckStyleParser.Parse decodeXML input =
      Except.ok (cs.files.flatMap (fun f => f.errors.map (checkStyleResultFor f.name))) := by
    simp only [CheckStyleParser.Parse, hdec]
    rw [checkStyle_foldl_eq, List.nil_append]
  refine ⟨_, hparse, ?_, ?_⟩
  · apply flatMap_congr_mem
    intro f hf
    apply List.map_congr_left
    intro e he
    rw [checkStyleResultFor, checkStyleLine,
      wrap32_eq_self (hrange f hf e he).1, wrap32_eq_self (hrange f hf e he).2]
  · rw [List.length_flatMap]
    apply congrArg List.sum
    apply List.map_congr_left
    intro f _
    simp

/-- Witness for C1 at the spec's own example document. -/
theorem checkStyle_parse_flatten_witness :
    ∃ rs,
      CheckStyleParser.Parse
        (fun _ => Except.ok
          { version := "4.3",
            files := [{ name := "a.go",
                        errors := [{ column := 5, line := 3, message := "unused var",
                                     severity := "error", source := "lint/unused" }] }] })
        "doc" = Except.ok rs ∧
      rs.length = 1 ∧
      rs = [{ diagnostic :=
                { location := { path := "a.go", range := { start := { line := 3, column := 5 } } },
                  message := "unused var" },
              lines := ["a.go:3:5: error: unused var (lint/unused)"] }] := by
  obtain ⟨rs, h1, h2, h3⟩ :=
    checkStyle_parse_flatten
      (fun _ => Except.ok
        { version := "4.3",
          files := [{ name := "a.go",
                      errors := [{ column := 5, line := 3, message := "unused var",
                                   severity := "error", source := "lint/unused" }] }] })
      "doc" _ rfl (by decide)
  exact ⟨rs, h1, by rw [h3]; decide, by rw [h2]; decide⟩

/-- Claim C2: a line-delimited input whose K scanned lines all decode yields
exactly K CheckResults in input order, the i-th pairing the i-th decoded
Diagnostic unchanged with `Lines` the singleton of the i-th raw line. -/
theorem rdjsonl_parse_wellformed (decode : String → Except String Diagnostic)
    (input : String) (ds : List Diagnostic)
    (h : decodeList decode (scanLines input) = Except.ok ds) :
    RDJSONLParser.Parse decode input =
      Except.ok (List.zipWith (fun l d => ({ diagnostic := d, lines := [l] } : CheckResult))
        (scanLines input) ds) ∧
    (List.zipWith (fun l d => ({ diagnostic := d, lines := [l] } : CheckResult))
        (scanLines input) ds).length = (scanLines input).length := by
  have hlen := decodeList_length decode _ ds h
  constructor
  · rw [RDJSONLParser.Parse, parseTokens_eq, h]
  · rw [List.length_zipWith, hlen, Nat.min_self]

/-- Witness for C2 on a two-line input. -/
theorem rdjsonl_parse_wellformed_witness :
    RDJSONLParser.Parse
      (fun l => Except.ok { location := { path := l }, message := "m" }) "a\nb" =
      Except.ok
        [{ diagnostic := { location := { path := "a" }, message := "m" }, lines := ["a"] },
         { diagnostic := { location := { path := "b" }, message := "m" }, lines := ["b"] }] := by
  have h :=
    (rdjsonl_parse_wellformed (fun l => Except.ok { location := { path := l }, message := "m" })
      "a\nb"
      [{ location := { path := "a" }, message := "m" },
       { location := { path := "b" }, message := "m" }] rfl).1
  rw [h]
  rfl

/-- Claim C3: whenever `FormatName` is non-empty and `Errorformat` is a
non-empty list, `NewParser` fails with the configuration-conflict error and
returns no parser, regardless of the values (built-in names included); `opt`
is left untouched. -/
theorem newParser_conflict (dfmts : String → Option (List String))
    (compile : List String → Except String Errorformat) (opt : ParserOpt)
    (h1 : opt.FormatName ≠ "") (h2 : opt.Errorformat ≠ []) :
    NewParser dfmts compile opt =
      (Except.error "you cannot specify both format name and errorformat at the same time",
       opt) := by
  rw [NewParser, if_pos ⟨h1, h2⟩]

/-- Witness for C3 with a built-in format name. -/
theorem newParser_conflict_witness :
    NewParser (fun _ => none) (fun rs => Except.ok ⟨rs⟩) ⟨"checkstyle", ["%f:%l: %m"]⟩ =
      (Except.error "you cannot specify both format name and errorformat at the same time",
       (⟨"checkstyle", ["%f:%l: %m"]⟩ : ParserOpt)) :=
  newParser_conflict _ _ _ (by decide) (by decide)

/-- Claim C4: any decode failure fails the whole `Parse` call with the decode
error and no partial results — for the checkstyle parser a markup decode
failure, for the rdjsonl parser any malformed line among the scanned lines. -/
theorem parse_abort_on_decode_error :
    (∀ (decodeXML : String → Except String CheckStyleResult) (input e : String),
        decodeXML input = Except.error e →
        CheckStyleParser.Parse decodeXML input = Except.error e) ∧
    (∀ (decode : String → Except String Diagnostic) (input : String),
        (∃ l ∈ scanLines input, ∃ er, decode l = Except.error er) →
        ∃ e, RDJSONLParser.Parse decode input = Except.error e) := by
  constructor
  · intro dx input e h
    rw [CheckStyleParser.Parse, h]
  · rintro decode input ⟨l, hmem, er, her⟩
    exact parseTokens_error_of_mem decode _ l er hmem her

/-- Witness for C4: a failing markup decode and a failing line decode. -/
theorem parse_abort_on_decode_error_witness :
    CheckStyleParser.Parse (fun _ => Except.error "bad markup") "doc" =
      Except.error "bad markup" ∧
    ∃ e, RDJSONLParser.Parse (fun _ => Except.error "bad line") "x" = Except.error e := by
  exact ⟨parse_abort_on_decode_error.1 _ "doc" "bad markup" rfl,
         parse_abort_on_decode_error.2 _ "x" ⟨"x", by decide, "bad line", rfl⟩⟩

/-- Claim C5: the errorformat adapter emits exactly one CheckResult per entry
whose `Valid` flag is true, in scan order, with
`Diagnostic{Path: Filename, Start.Line: Lnum, Start.Column: Col, Message: Text}`
and `Lines` the entry's consumed lines verbatim; invalid entries never appear. -/
theorem errorformat_parse_valid (entries : List Entry)
    (h : ∀ e ∈ entries, inInt32 e.lnum ∧ inInt32 e.col) :
    (ErrorformatParser.Parse entries).1 =
      entries.filterMap (fun e =>
        if e.valid then
          some { diagnostic :=
                   { location :=
                       { path := e.filename,
                         range := { start := { line := e.lnum, column := e.col } } },
                     message := e.text },
                 lines := e.lines }
        else none) ∧
    (ErrorformatParser.Parse entries).1.length = (entries.filter (fun e => e.valid)).length := by
  have key : (ErrorformatParser.Parse entries).1 =
      entries.filterMap (fun e => if e.valid then some (entryResult e) else none) := by
    rw [ErrorformatParser.Parse]
    rw [foldl_guard_append_map (fun e : Entry => e.valid) entryResult, List.nil_append]
  constructor
  · rw [key]
    apply filterMap_congr_mem
    intro e he
    rw [entryResult, wrap32_eq_self (h e he).1, wrap32_eq_self (h e he).2]
  · rw [key, length_filterMap_guard]

/-- Witness for C5: one valid and one invalid entry. -/
theorem errorformat_parse_valid_witness :
    (ErrorformatParser.Parse
      [⟨"main.go", 10, 2, "missing return", ["main.go:10:2: missing return"], true⟩,
       ⟨"", 0, 0, "", ["junk"], false⟩]).1 =
      [{ diagnostic :=
           { location := { path := "main.go", range := { start := { line := 10, column := 2 } } },
             message := "missing return" },
         lines := ["main.go:10:2: missing return"] }] := by
  have h :=
    errorformat_parse_valid
      [⟨"main.go", 10, 2, "missing return", ["main.go:10:2: missing return"], true⟩,
       ⟨"", 0, 0, "", ["junk"], false⟩] (by decide)
  rw [h.1]
  decide

/-- Claim C6: the errorformat adapter always returns a nil error — stream
read failures are never surfaced — and zero valid entries yields the empty
sequence rather than an error. -/
theorem errorformat_parse_no_error (entries : List Entry) :
    (ErrorformatParser.Parse entries).2 = none ∧
    ((∀ e ∈ entries, e.valid = false) → (ErrorformatParser.Parse entries).1 = []) := by
  refine ⟨rfl, fun h => ?_⟩
  rw [ErrorformatParser.Parse]
  rw [foldl_guard_append_map (fun e : Entry => e.valid) entryResult, List.nil_append]
  rw [List.filterMap_eq_nil_iff]
  intro e he
  rw [h e he]
  rfl

/-- Witness for C6: an all-invalid entry list. -/
theorem errorformat_parse_no_error_witness :
    (ErrorformatParser.Parse [⟨"f", 1, 1, "t", ["l"], false⟩]).2 = none ∧
    (ErrorformatParser.Parse [⟨"f", 1, 1, "t", ["l"], false⟩]).1 = [] := by
  have h := errorformat_parse_no_error [⟨"f", 1, 1, "t", ["l"], false⟩]
  exact ⟨h.1, h.2 (by decide)⟩

/-- Claim C7: encoding a Diagnostic as one JSON line (one scanner token) and
parsing it back yields exactly one CheckResult whose Diagnostic is the
original, field for field. -/
theorem rdjsonl_roundtrip (decode : String → Except String Diagnostic)
    (encode : Diagnostic → String) (d : Diagnostic)
    (hline : scanLines (encode d) = [encode d])
    (hdec : decode (encode d) = Except.ok d) :
    RDJSONLParser.Parse decode (encode d) =
      Except.ok [{ diagnostic := d, lines := [encode d] }] := by
  rw [RDJSONLParser.Parse, hline, RDJSONLParser.parseTokens, hdec]
  rfl

/-- Witness for C7 with a concrete diagnostic and codec. -/
theorem rdjsonl_roundtrip_witness :
    RDJSONLParser.Parse
      (fun _ => Except.ok { location := { path := "p" }, message := "m" }) "enc" =
      Except.ok [{ diagnostic := { location := { path := "p" }, message := "m" },
                   lines := ["enc"] }] :=
  rdjsonl_roundtrip (fun _ => Except.ok { location := { path := "p" }, message := "m" })
    (fun _ => "enc") { location := { path := "p" }, message := "m" } (by decide) rfl

/-- Counterexample to claim C8 as stated: on the input `"x\n\n"` the blank
trailing line is scanned as an empty token, which IS handed to the decoder
(the code decodes every scanned token, empty or not), and with a decoder that
rejects empty input — as `json.Unmarshal` does — the whole call fails. -/
theorem rdjsonl_blank_line_cex :
    RDJSONLParser.Parse
      (fun s => if s = "" then Except.error "unexpected end of JSON input"
                else Except.ok { location := { path := s }, message := "" })
      "x\n\n" = Except.error "unexpected end of JSON input" := by
  rfl

/-- Claim C8 amended: every token the line scanner produces, empty or not, is
handed to the decoder. Only the single terminating newline of a non-empty,
not-newline-terminated input is absorbed (appending one final newline does not
change the scanned lines); any additional blank line yields an empty token
that is decoded like any other line and fails when the decoder rejects empty
input. -/
theorem rdjsonl_blank_lines (s : String) (decode : String → Except String Diagnostic)
    (e : String)
    (h1 : s.data ≠ []) (h2 : s.data.getLast? ≠ some '\n')
    (h3 : decode "" = Except.error e) :
    scanLines (s ++ "\n") = scanLines s ∧
    RDJSONLParser.Parse decode "\n" = Except.error e := by
  constructor
  · rw [scanLines, scanLines, data_append]
    exact scanLinesGo_append_newline s.data [] (fun h => absurd h h1) h2
  · have hsc : scanLines "\n" = [""] := by decide
    rw [RDJSONLParser.Parse, hsc, RDJSONLParser.parseTokens, h3]

/-- Witness for the amended C8. -/
theorem rdjsonl_blank_lines_witness :
    scanLines ("x" ++ "\n") = scanLines "x" ∧
    RDJSONLParser.Parse
      (fun s => if s = "" then Except.error "E" else Except.ok { location := { path := s } })
      "\n" = Except.error "E" :=
  rdjsonl_blank_lines "x"
    (fun s => if s = "" then Except.error "E" else Except.ok { location := { path := s } })
    "E" (by decide) (by decide) rfl

/-- Counterexample to claim C9 as stated: resolving a catalog format name
overwrites the `Errorformat` field of the supplied `ParserOpt` (the Go code
assigns `opt.Errorformat = efm.Errorformat` through the pointer), so after a
successful call the field differs from its value before the call. -/
theorem newParser_mutates_cex :
    (NewParser (fun n => if n = "golint" then some ["%f:%l:%c: %m"] else none)
        (fun rs => Except.ok ⟨rs⟩) ⟨"golint", []⟩).2 ≠
      (⟨"golint", []⟩ : ParserOpt) := by
  decide

/-- Claim C9 amended: `NewParser` never modifies `FormatName`, and it leaves
`Errorformat` unchanged except in one case — `FormatName` non-empty, not one
of the two built-ins, and found in the catalog — where `Errorformat` is
overwritten with the resolved catalog rule list (whether or not construction
then succeeds). -/
theorem newParser_opt_frame (dfmts : String → Option (List String))
    (compile : List String → Except String Errorformat) (opt : ParserOpt) :
    (NewParser dfmts compile opt).2.FormatName = opt.FormatName ∧
    ((NewParser dfmts compile opt).2.Errorformat = opt.Errorformat ∨
      (opt.FormatName ≠ "" ∧ opt.FormatName ≠ "checkstyle" ∧ opt.FormatName ≠ "rdjsonl" ∧
        dfmts opt.FormatName = some ((NewParser dfmts compile opt).2.Errorformat))) := by
  have hbuild : ∀ opt2, (buildEfmParser compile opt2).2 = opt2 := by
    intro opt2
    rw [buildEfmParser]
    split
    · rfl
    · split <;> rfl
  rw [NewParser]
  by_cases hc : opt.FormatName ≠ "" ∧ opt.Errorformat ≠ []
  · rw [if_pos hc]
    exact ⟨rfl, Or.inl rfl⟩
  · rw [if_neg hc]
    by_cases h1 : opt.FormatName = "checkstyle"
    · rw [if_pos h1]
      exact ⟨rfl, Or.inl rfl⟩
    · rw [if_neg h1]
      by_cases h2 : opt.FormatName = "rdjsonl"
      · rw [if_pos h2]
        exact ⟨rfl, Or.inl rfl⟩
      · rw [if_neg h2]
        cases hres : resolveOpt dfmts opt with
        | error e => exact ⟨rfl, Or.inl rfl⟩
        | ok opt2 =>
          by_cases h0 : opt.FormatName = ""
          · rw [resolveOpt, if_pos h0] at hres
            cases hres
            rw [hbuild]
            exact ⟨rfl, Or.inl rfl⟩
          · rw [resolveOpt, if_neg h0] at hres
            cases hdf : dfmts opt.FormatName with
            | none => rw [hdf] at hres; cases hres
            | some efm =>
              rw [hdf] at hres
              cases hres
              rw [hbuild]
              exact ⟨rfl, Or.inr ⟨h0, h1, h2, rfl⟩⟩

/-- Claim C10: when the reader fails mid-stream, `RDJSONLParser.Parse` is
indistinguishable from a run over the complete data: it returns the
CheckResults decoded from the lines read so far with a nil error, because the
scanner's error status is never checked after the scan loop. -/
theorem rdjsonl_reader_error_silent (decode : String → Except String Diagnostic)
    (data : String) (ds : List Diagnostic)
    (h : decodeList decode (scanLines data) = Except.ok ds) :
    RDJSONLParser.ParseFromReader decode data true =
      RDJSONLParser.ParseFromReader decode data false ∧
    RDJSONLParser.ParseFromReader decode data true =
      Except.ok (List.zipWith (fun l d => ({ diagnostic := d, lines := [l] } : CheckResult))
        (scanLines data) ds) := by
  refine ⟨rfl, ?_⟩
  rw [RDJSONLParser.ParseFromReader, parseTokens_eq, h]

/-- Witness for C10 on a one-line stream cut off by a read error. -/
theorem rdjsonl_reader_error_silent_witness :
    RDJSONLParser.ParseFromReader (fun l => Except.ok { message := l }) "a" true =
      RDJSONLParser.ParseFromReader (fun l => Except.ok { message := l }) "a" false ∧
    RDJSONLParser.ParseFromReader (fun l => Except.ok { message := l }) "a" true =
      Except.ok [{ diagnostic := { message := "a" }, lines := ["a"] }] := by
  have h := rdjsonl_reader_error_silent (fun l => Except.ok { message := l }) "a"
    [{ message := "a" }] rfl
  exact ⟨h.1, h.2.trans (by rfl)⟩

end Reviewdog
